import Mathlib

/-!
Verification of the cross-cycle duplicate detector
(`backend/ai/deduplicator.py`) of the india-ai-tracker repository.

The Python module is shallowly embedded below.  Conventions:

* Python strings are `String` / `List Char` (ASCII titles and URLs; the
  character-class predicates model the ASCII fragment of Python's `re`).
* Python floats are modelled as exact rationals `ℚ`; `int(x)` for the
  non-negative values arising here is `pyIntNat`.
* The fuzzy string ratios come from the `fuzzywuzzy` library in its
  pure-python configuration, which delegates to `difflib.SequenceMatcher`;
  both are embedded below (`findLongestMatch`, `matchTotal`, `seqRatioQ`,
  `ratioFz`, `partialRatioFz`, `tokenSortRatio`, `tokenSetRatio`).
* Recursions that walk a string while skipping variable-length chunks use
  an explicit fuel argument (always called with `length + 1`, enough for
  every step that consumes at least one character); a fuel-exhausted call
  returns its input unchanged.
-/

/-- ASCII lower-casing of one character, the fragment of Python `str.lower`
exercised by this code base. -/
def asciiLower (c : Char) : Char :=
  if 'A' ≤ c ∧ c ≤ 'Z' then Char.ofNat (c.toNat + 32) else c

/-- Python `s.lower()` on a character list. -/
def pyLowerL (l : List Char) : List Char := l.map asciiLower

/-- Python `s.lower()` on a `String`. -/
def pyLowerS (s : String) : String := ⟨pyLowerL s.data⟩

/-- Python whitespace (the set matched by `\s` and used by `str.split` /
`str.strip`), ASCII fragment. -/
def isSpaceChar (c : Char) : Bool :=
  c = ' ' ∨ c = '\t' ∨ c = '\n' ∨ c = '\x0d' ∨ c = '\x0b' ∨ c = '\x0c'

/-- Python `\w` (word character), ASCII fragment: letters, digits, underscore. -/
def isWordChar (c : Char) : Bool :=
  ('a' ≤ c ∧ c ≤ 'z') ∨ ('A' ≤ c ∧ c ≤ 'Z') ∨ ('0' ≤ c ∧ c ≤ '9') ∨ c = '_'

/-- Lower-case ASCII letter, the class `[a-z]`. -/
def isLowerAlpha (c : Char) : Bool := 'a' ≤ c ∧ c ≤ 'z'

/-- ASCII digit, the class `\d`. -/
def isDigitChar (c : Char) : Bool := '0' ≤ c ∧ c ≤ '9'

/-- Does `p` occur as a prefix of `l`? -/
def startsWithL (p l : List Char) : Bool :=
  match p, l with
  | [], _ => true
  | _ :: _, [] => false
  | a :: ps, b :: ls => a = b ∧ startsWithL ps ls

/-- Does `p` occur as a contiguous substring of `l`?  (Python `p in l`.) -/
def containsSub (p l : List Char) : Bool :=
  match l with
  | [] => startsWithL p []
  | _ :: ls => startsWithL p l || containsSub p ls

/-- Python `str.split()` — split on runs of whitespace, dropping empties.
Fueled scan; fuel `length + 1` is always enough. -/
def pySplitF : Nat → List Char → List (List Char)
  | 0, _ => []
  | _ + 1, [] => []
  | f + 1, c :: cs =>
    if isSpaceChar c then pySplitF f cs
    else
      let run := (c :: cs).takeWhile (fun d => !isSpaceChar d)
      let rest := (c :: cs).dropWhile (fun d => !isSpaceChar d)
      run :: pySplitF f rest

/-- Python `str.split()` on a character list. -/
def pySplit (l : List Char) : List (List Char) := pySplitF (l.length + 1) l

/-- Python `str.strip()` (both ends, whitespace). -/
def pyStrip (l : List Char) : List Char :=
  ((l.dropWhile isSpaceChar).reverse.dropWhile isSpaceChar).reverse

/-- Lexicographic order on character lists by code point, Python `<` on
strings. -/
def clLt : List Char → List Char → Bool
  | [], [] => false
  | [], _ :: _ => true
  | _ :: _, [] => false
  | c :: cs, d :: ds => if c < d then true else if d < c then false else clLt cs ds

/-- Insert into a `clLt`-sorted list (used to model Python `sorted`). -/
def insSorted (x : List Char) : List (List Char) → List (List Char)
  | [] => [x]
  | y :: ys => if clLt y x then y :: insSorted x ys else x :: y :: ys

/-- Python `sorted` on a list of strings (duplicates kept). -/
def pySortL (l : List (List Char)) : List (List Char) :=
  l.foldl (fun acc x => insSorted x acc) []

/-- Add an element to a duplicate-free list if absent (Python `set.add`). -/
def setInsert (x : String) (l : List String) : List String :=
  if x ∈ l then l else l ++ [x]

/-- The distinct elements of a list (Python `set(...)` as a list; only
membership and cardinality of the result are ever used). -/
def pySet (l : List String) : List String := l.dedup

/-- The distinct elements of a list, character-list version. -/
def pySetL (l : List (List Char)) : List (List Char) := l.dedup

/-- Python `sorted(set(xs))` for a list of strings, producing the canonical
sorted duplicate-free list stored in an `EntitySet`. -/
def pySortedDedup (l : List (List Char)) : List String :=
  (pySortL (pySetL l)).map (fun cl => (⟨cl⟩ : String))

/-- Set equality of two lists (Python `set(a) == set(b)`). -/
def setEqB (a b : List String) : Bool :=
  a.all (· ∈ b) && b.all (· ∈ a)

/-- Number of distinct elements the two lists share
(Python `len(set(a) & set(b))`). -/
def interCount (a b : List String) : Nat :=
  ((pySet a).filter (· ∈ b)).length

/-- Number of distinct elements in the union
(Python `len(set(a) | set(b))`). -/
def unionCount (a b : List String) : Nat :=
  (pySet (a ++ b)).length

/-- Python `int(q)` for a non-negative rational (truncation = floor). -/
def pyIntNat (q : ℚ) : Nat := q.num.toNat / q.den

/-!
### difflib.SequenceMatcher (no junk, autojunk irrelevant below 200 chars)

`find_longest_match` is the textbook longest-common-contiguous-substring
dynamic program (difflib's `b2j`-indexed loop computes exactly this row
recurrence; with no junk the post-scan junk-extension loops are no-ops
because the scan already returns a maximal block).  Ties are broken by the
first strictly-larger entry found scanning rows (lowest `i`) left to right
(lowest `j`), as in difflib.
-/

/-- One row of the longest-common-substring dynamic program:
entry `j` is `prev[j-1] + 1` when `b[j] = ai`, else `0`.  `diag` carries
`prev[j-1]`; the initial call passes `diag = 0`. -/
def lcsRowGo (ai : Char) : List Char → List Nat → Nat → List Nat
  | [], _, _ => []
  | c :: cs, prev, diag =>
    (if c = ai then diag + 1 else 0) :: lcsRowGo ai cs prev.tail (prev.headD 0)

/-- Scan a DP row (row index `i`, starting column `j`), updating the best
block `(besti, bestj, bestsize)` at every strictly larger entry. -/
def scanRow (i : Nat) : List Nat → Nat → Nat × Nat × Nat → Nat × Nat × Nat
  | [], _, best => best
  | k :: rest, j, best =>
    scanRow i rest (j + 1) (if best.2.2 < k then (i + 1 - k, j + 1 - k, k) else best)

/-- Row-by-row driver of `find_longest_match`. -/
def flmGo (b : List Char) : List Char → Nat → List Nat → Nat × Nat × Nat → Nat × Nat × Nat
  | [], _, _, best => best
  | ai :: arest, i, prev, best =>
    let row := lcsRowGo ai b prev 0
    flmGo b arest (i + 1) row (scanRow i row 0 best)

/-- `SequenceMatcher.find_longest_match` over whole sequences: the longest
block `(i, j, k)` with `a[i:i+k] = b[j:j+k]`, difflib's tie-breaking. -/
def findLongestMatch (a b : List Char) : Nat × Nat × Nat :=
  flmGo b a 0 [] (0, 0, 0)

/-- Total size of all matching blocks (`sum of k over get_matching_blocks`),
via difflib's divide-and-conquer around the longest match.  Fueled; each
recursive call strictly shrinks `a`, so fuel `a.length + 1` is exact. -/
def matchTotalF : Nat → List Char → List Char → Nat
  | 0, _, _ => 0
  | fuel + 1, a, b =>
    let m := findLongestMatch a b
    if m.2.2 = 0 then 0
    else
      m.2.2 + matchTotalF fuel (a.take m.1) (b.take m.2.1)
            + matchTotalF fuel (a.drop (m.1 + m.2.2)) (b.drop (m.2.1 + m.2.2))

/-- Total matched size for two sequences. -/
def matchTotal (a b : List Char) : Nat := matchTotalF (a.length + 1) a b

/-- The non-dummy matching blocks with absolute offsets.  difflib
additionally merges adjacent blocks and sorts; `partial_ratio` below only
uses each block's offset `j - i`, which merging and sorting do not change,
so the unmerged list is observationally equivalent there. -/
def matchBlocksF : Nat → List Char → List Char → Nat → Nat → List (Nat × Nat × Nat)
  | 0, _, _, _, _ => []
  | fuel + 1, a, b, aoff, boff =>
    let m := findLongestMatch a b
    if m.2.2 = 0 then []
    else
      matchBlocksF fuel (a.take m.1) (b.take m.2.1) aoff boff
        ++ [(aoff + m.1, boff + m.2.1, m.2.2)]
        ++ matchBlocksF fuel (a.drop (m.1 + m.2.2)) (b.drop (m.2.1 + m.2.2))
             (aoff + m.1 + m.2.2) (boff + m.2.1 + m.2.2)

/-- `SequenceMatcher.get_matching_blocks`, including the terminal dummy
block `(len a, len b, 0)`. -/
def getMatchingBlocks (a b : List Char) : List (Nat × Nat × Nat) :=
  matchBlocksF (a.length + 1) a b 0 0 ++ [(a.length, b.length, 0)]

/-- `SequenceMatcher.ratio` as an exact rational: `2 * M / T`, and `1.0`
when both sequences are empty. -/
def seqRatioQ (a b : List Char) : ℚ :=
  let T := a.length + b.length
  if T = 0 then 1 else (2 * matchTotal a b : ℚ) / (T : ℚ)

/-- fuzzywuzzy `utils.intr`: `int(round(x))` with Python's round-half-to-even,
for the non-negative values arising here. -/
def intr (q : ℚ) : Nat :=
  let f := pyIntNat q
  let r := q - (f : ℚ)
  if r < 1 / 2 then f else if 1 / 2 < r then f + 1 else if f % 2 = 0 then f else f + 1

/-- `fuzz.ratio`: the `check_empty_string` decorator returns 0 on an empty
argument, otherwise `intr(100 * SequenceMatcher.ratio)`. -/
def ratioFz (s1 s2 : List Char) : Nat :=
  if s1.length = 0 ∨ s2.length = 0 then 0
  else intr (100 * seqRatioQ s1 s2)

/-- Maximum of a list of rationals (Python `max`, default 0 never used on
the non-empty lists arising here). -/
def maxQ (l : List ℚ) : ℚ := l.foldl max 0

/-- `fuzz.partial_ratio`: best `SequenceMatcher.ratio` of the shorter string
against the equally long slice of the longer string aligned with each
matching block; any ratio above 0.995 short-circuits to 100. -/
def partialRatioFz (s1 s2 : List Char) : Nat :=
  if s1.length = 0 ∨ s2.length = 0 then 0
  else
    let shorter := if s1.length ≤ s2.length then s1 else s2
    let longer := if s1.length ≤ s2.length then s2 else s1
    let blocks := getMatchingBlocks shorter longer
    let scores := blocks.map (fun bl =>
      let lstart := if bl.1 < bl.2.1 then bl.2.1 - bl.1 else 0
      let substr := (longer.drop lstart).take shorter.length
      seqRatioQ shorter substr)
    if scores.any (fun r => 199 / 200 < r) then 100
    else intr (100 * maxQ scores)

/-- fuzzywuzzy `utils.full_process` with `force_ascii = True`: drop
non-ASCII, replace every non-`\w` character by a space, lower-case, strip. -/
def fullProcess (s : List Char) : List Char :=
  pyStrip (pyLowerL ((s.filter (fun c => c.toNat < 128)).map
    (fun c => if isWordChar c then c else ' ')))

/-- `" ".join(tokens)`. -/
def joinSpace (ts : List (List Char)) : List Char := List.intercalate [' '] ts

/-- fuzzywuzzy `_process_and_sort`: full-process, split, sort, re-join, strip. -/
def processAndSort (s : List Char) : List Char :=
  pyStrip (joinSpace (pySortL (pySplit (fullProcess s))))

/-- `fuzz.token_sort_ratio`. -/
def tokenSortRatio (s1 s2 : List Char) : Nat :=
  ratioFz (processAndSort s1) (processAndSort s2)

/-- `fuzz.token_set_ratio`: compare the sorted token intersection against
each side's intersection-plus-difference string, and the two of those
against each other; take the maximum (0 if a processed string is empty). -/
def tokenSetRatio (s1 s2 : List Char) : Nat :=
  let p1 := fullProcess s1
  let p2 := fullProcess s2
  if p1.length = 0 ∨ p2.length = 0 then 0
  else
    let tokens1 := pySetL (pySplit p1)
    let tokens2 := pySetL (pySplit p2)
    let sortedSect := joinSpace (pySortL (tokens1.filter (· ∈ tokens2)))
    let sorted1to2 := joinSpace (pySortL (tokens1.filter (· ∉ tokens2)))
    let sorted2to1 := joinSpace (pySortL (tokens2.filter (· ∉ tokens1)))
    let combined1to2 := pyStrip (sortedSect ++ [' '] ++ sorted1to2)
    let combined2to1 := pyStrip (sortedSect ++ [' '] ++ sorted2to1)
    let sect := pyStrip sortedSect
    max (max (ratioFz sect combined1to2) (ratioFz sect combined2to1))
        (ratioFz combined1to2 combined2to1)

/-!
### Deduplicator — URL normalisation (`_normalize_url`)

`re.sub(r'[?&](utm_[^&]*|fbclid=[^&]*|gclid=[^&]*|ref=[^&]*)', '', url)` is a
case-sensitive, leftmost, non-overlapping scan: at a `?` or `&` followed by
one of the four (first-letter-disjoint) parameter prefixes, the greedy
`[^&]*` consumes up to the next `&` or the end.
-/

/-- The four tracking-parameter name prefixes. -/
def trackingParamAt (l : List Char) : Option Nat :=
  if startsWithL ['u', 't', 'm', '_'] l then some 4
  else if startsWithL ['f', 'b', 'c', 'l', 'i', 'd', '='] l then some 7
  else if startsWithL ['g', 'c', 'l', 'i', 'd', '='] l then some 6
  else if startsWithL ['r', 'e', 'f', '='] l then some 4
  else none

/-- The tracking-parameter substitution.  Fueled; every step consumes at
least one character. -/
def stripTrackingF : Nat → List Char → List Char
  | 0, l => l
  | _ + 1, [] => []
  | f + 1, c :: cs =>
    if c = '?' ∨ c = '&' then
      match trackingParamAt cs with
      | some n => stripTrackingF f ((cs.drop n).dropWhile (· ≠ '&'))
      | none => c :: stripTrackingF f cs
    else c :: stripTrackingF f cs

/-- `re.sub(r'[?&]$', '', url)`: drop one trailing `?` or `&`. -/
def stripDangling (l : List Char) : List Char :=
  match l.reverse with
  | c :: rest => if c = '?' ∨ c = '&' then rest.reverse else l
  | [] => l

/-- `url.rstrip('/')`. -/
def rstripSlash (l : List Char) : List Char :=
  (l.reverse.dropWhile (· = '/')).reverse

/-- `re.sub(r'://www\.', '', url)`: remove every occurrence of `://www.`
(leftmost, non-overlapping).  Fueled. -/
def stripWwwF : Nat → List Char → List Char
  | 0, l => l
  | _ + 1, [] => []
  | f + 1, c :: cs =>
    if startsWithL [':', '/', '/', 'w', 'w', 'w', '.'] (c :: cs) then
      stripWwwF f ((c :: cs).drop 7)
    else c :: stripWwwF f cs

/-- `Deduplicator._normalize_url`, applied to the character list. -/
def normalizeUrlL (l : List Char) : List Char :=
  if l = [] then []
  else
    let l1 := stripTrackingF (l.length + 1) l
    let l2 := stripDangling l1
    let l3 := pyLowerL l2
    let l4 := rstripSlash l3
    stripWwwF (l4.length + 1) l4

/-- `Deduplicator._normalize_url`. -/
def normalizeUrl (url : String) : String := ⟨normalizeUrlL url.data⟩

/-!
### Deduplicator — entity extraction (`_extract_entities`, `_normalize_amount`)

`AMOUNT_PATTERN = (?:₹|rs\.?|inr|usd|\$)\s*[\d,]+(?:\.\d+)?\s*(?:crore|cr|lakh|million|mn|billion|bn|k)?`
with `re.IGNORECASE`; since every match is immediately lower-cased, the scan
below runs on the lower-cased text, which yields the same matches and spans
for ASCII input.  All parts are greedy; the trailing unit alternatives are
tried in the written order.
-/

/-- Match the currency alternation `₹|rs\.?|inr|usd|\$` (lower-cased input);
returns the length consumed. -/
def currencyAt (l : List Char) : Option Nat :=
  if startsWithL ['₹'] l then some 1
  else if startsWithL ['r', 's', '.'] l then some 3
  else if startsWithL ['r', 's'] l then some 2
  else if startsWithL ['i', 'n', 'r'] l then some 3
  else if startsWithL ['u', 's', 'd'] l then some 3
  else if startsWithL ['$'] l then some 1
  else none

/-- The scale-word alternation `crore|cr|lakh|million|mn|billion|bn|k`,
first alternative that matches; returns the length consumed (0 if none). -/
def unitLenAt (l : List Char) : Nat :=
  if startsWithL ['c', 'r', 'o', 'r', 'e'] l then 5
  else if startsWithL ['c', 'r'] l then 2
  else if startsWithL ['l', 'a', 'k', 'h'] l then 4
  else if startsWithL ['m', 'i', 'l', 'l', 'i', 'o', 'n'] l then 7
  else if startsWithL ['m', 'n'] l then 2
  else if startsWithL ['b', 'i', 'l', 'l', 'i', 'o', 'n'] l then 7
  else if startsWithL ['b', 'n'] l then 2
  else if startsWithL ['k'] l then 1
  else 0

/-- Try `AMOUNT_PATTERN` at the head of `l`; on success return the matched
text and the remainder. -/
def matchAmountAt (l : List Char) : Option (List Char × List Char) :=
  match currencyAt l with
  | none => none
  | some ncur =>
    let r1 := l.drop ncur
    let ws1 := r1.takeWhile isSpaceChar
    let r2 := r1.drop ws1.length
    let digits := r2.takeWhile (fun c => isDigitChar c ∨ c = ',')
    if digits = [] then none
    else
      let r3 := r2.drop digits.length
      let frac : List Char :=
        match r3 with
        | '.' :: t =>
          let fd := t.takeWhile isDigitChar
          if fd = [] then [] else '.' :: fd
        | _ => []
      let r4 := r3.drop frac.length
      let ws2 := r4.takeWhile isSpaceChar
      let r5 := r4.drop ws2.length
      let nunit := unitLenAt r5
      let matched := l.take (ncur + ws1.length + digits.length + frac.length
                              + ws2.length + nunit)
      some (matched, r5.drop nunit)

/-- `AMOUNT_PATTERN.finditer`: leftmost, non-overlapping matches.  Fueled. -/
def scanAmounts : Nat → List Char → List (List Char)
  | 0, _ => []
  | _ + 1, [] => []
  | f + 1, c :: cs =>
    match matchAmountAt (c :: cs) with
    | some (m, rest) => m :: scanAmounts f rest
    | none => scanAmounts f cs

/-- `re.sub(r'[₹$]|rs\.?|inr|usd', '', s)` inside `_normalize_amount`
(input already lower-cased). -/
def stripCurrencyF : Nat → List Char → List Char
  | 0, l => l
  | _ + 1, [] => []
  | f + 1, c :: cs =>
    if c = '₹' ∨ c = '$' then stripCurrencyF f cs
    else if startsWithL ['r', 's', '.'] (c :: cs) then stripCurrencyF f (cs.drop 2)
    else if startsWithL ['r', 's'] (c :: cs) then stripCurrencyF f (cs.drop 1)
    else if startsWithL ['i', 'n', 'r'] (c :: cs) ∨ startsWithL ['u', 's', 'd'] (c :: cs) then
      stripCurrencyF f (cs.drop 2)
    else c :: stripCurrencyF f cs

/-- First maximal run of `[\d.]` characters (`re.search(r'[\d.]+', s)`). -/
def firstNumRun : List Char → List Char
  | [] => []
  | c :: cs =>
    if isDigitChar c ∨ c = '.' then
      (c :: cs).takeWhile (fun d => isDigitChar d ∨ d = '.')
    else firstNumRun cs

/-- Digits to a natural number. -/
def digitsToNat (l : List Char) : Nat :=
  l.foldl (fun acc c => acc * 10 + (c.toNat - '0'.toNat)) 0

/-- Python `float(s)` for a `[\d.]+` run, as an exact rational.  `none`
models the (unreachable for pattern-matched amounts) inputs on which
Python `float` raises: no digit at all, or more than one dot. -/
def parseFloatQ (l : List Char) : Option ℚ :=
  let intPart := l.takeWhile isDigitChar
  match l.drop intPart.length with
  | [] => if intPart = [] then none else some (digitsToNat intPart : ℚ)
  | '.' :: t =>
    if t.all isDigitChar ∧ (intPart ≠ [] ∨ t ≠ []) then
      some ((digitsToNat intPart : ℚ) + (digitsToNat t : ℚ) / ((10 : ℚ) ^ t.length))
    else none
  | _ => none

/-- Decimal representation of a natural number, as a character list. -/
def natDigits (n : Nat) : List Char := (Nat.repr n).data

/-- `Deduplicator._normalize_amount` on an already lower-cased match.
Removes commas and spaces, strips currency markers, parses the first
numeric run, applies the `k` multiplier (only without `crore`/`lakh`),
classifies the unit by substring tests, and prints `{int(num)}{unit}`.
On an unparsable numeric run Python would raise; that case is unreachable
from `AMOUNT_PATTERN` matches and is modelled as returning the stripped
string (same as the no-numeric-run branch). -/
def normalizeAmount (m : List Char) : List Char :=
  let s0 := m.filter (fun c => c ≠ ',' ∧ c ≠ ' ')
  let s := stripCurrencyF (s0.length + 1) s0
  let run := firstNumRun s
  if run = [] then s
  else
    match parseFloatQ run with
    | none => s
    | some q =>
      let num :=
        if 'k' ∈ s ∧ ¬ containsSub ['c', 'r', 'o', 'r', 'e'] s
             ∧ ¬ containsSub ['l', 'a', 'k', 'h'] s
        then q * 1000 else q
      let unit : List Char :=
        if containsSub ['c', 'r', 'o', 'r', 'e'] s ∨ containsSub ['c', 'r'] s then
          ['c', 'r']
        else if containsSub ['l', 'a', 'k', 'h'] s then ['l', 'a', 'k', 'h']
        else if containsSub ['b', 'i', 'l', 'l', 'i', 'o', 'n'] s ∨ containsSub ['b', 'n'] s then
          ['b', 'n']
        else if containsSub ['m', 'i', 'l', 'l', 'i', 'o', 'n'] s ∨ containsSub ['m', 'n'] s then
          ['m', 'n']
        else []
      natDigits (pyIntNat num) ++ unit

/-- `re.findall(r'\b[a-z]+\b', text_lower)`: maximal lower-case-letter runs
whose neighbours (if any) are not word characters.  Fueled scan carrying
whether the previous character was a word character. -/
def findWordsF : Nat → Bool → List Char → List (List Char)
  | 0, _, _ => []
  | _ + 1, _, [] => []
  | f + 1, prevWord, c :: cs =>
    if isLowerAlpha c then
      if prevWord then findWordsF f true ((c :: cs).dropWhile isWordChar)
      else
        let run := (c :: cs).takeWhile isLowerAlpha
        let rest := (c :: cs).drop run.length
        match rest with
        | [] => [run]
        | d :: _ =>
          if isWordChar d then findWordsF f true (rest.dropWhile isWordChar)
          else run :: findWordsF f true rest
    else findWordsF f (isWordChar c) cs

/-- The `NOISE_WORDS` stop list. -/
def noiseWords : List String :=
  ["a", "an", "the", "to", "for", "in", "on", "at", "by", "with", "from",
   "is", "are", "was", "were", "be", "been", "being",
   "will", "would", "could", "should", "may", "might",
   "set", "up", "sets", "setting", "ready", "new",
   "india", "indian", "indias",
   "announces", "announced", "announcement", "launching", "launches", "launch",
   "plans", "planning", "planned", "plan",
   "estimated", "expected", "likely", "reportedly",
   "says", "said", "reports", "reported"]

/-- The entity record returned by `_extract_entities`.  The `companies`
field of the Python dict is omitted: no code path of the deduplicator ever
reads it (only `amounts` and `key_terms` feed the similarity decisions). -/
structure Entities where
  amounts : List String
  keyTerms : List String
deriving DecidableEq

/-- `Deduplicator._extract_entities` (of the title; the lower-casing and
`IGNORECASE` of the amount scan commute for ASCII text). -/
def extractEntities (text : String) : Entities :=
  let textLower := pyLowerL text.data
  let amounts := (scanAmounts (textLower.length + 1) textLower).map normalizeAmount
  let words := findWordsF (textLower.length + 1) false textLower
  let keyTerms := words.filter
    (fun w => (⟨w⟩ : String) ∉ noiseWords ∧ 2 < w.length)
  { amounts := pySortedDedup amounts, keyTerms := pySortedDedup keyTerms }

/-!
### Deduplicator — amount similarity and distinguishing terms
-/

/-- First maximal digit run. -/
def firstDigitRun : List Char → List Char
  | [] => []
  | c :: cs =>
    if isDigitChar c then (c :: cs).takeWhile isDigitChar
    else firstDigitRun cs

/-- The inner `extract_number` of `_amounts_are_similar`: value of the first
digit run (`re.search(r'\d+', ...)`), 0 when there is none. -/
def extractNumber (amt : String) : Nat :=
  digitsToNat (firstDigitRun amt.data)

/-- `Deduplicator._amounts_are_similar`.  `min/max > 0.8` for positive
naturals is `4 * max < 5 * min`, exactly (Python compares the float
quotient; the boundary value 0.8 itself is exact in binary only in our
rational model, where it agrees with Python on every integer pair). -/
def amountsAreSimilar (amounts1 amounts2 : List String) : Bool :=
  let nums1 := ((amounts1.map extractNumber).dedup).filter (0 < ·)
  let nums2 := ((amounts2.map extractNumber).dedup).filter (0 < ·)
  if nums1 = [] ∨ nums2 = [] then true
  else if nums1.any (· ∈ nums2) then true
  else nums1.any (fun n1 => nums2.any (fun n2 => 4 * max n1 n2 < 5 * min n1 n2))

/-- `common_generic` word list of `_extract_distinguishing_terms`. -/
def commonGeneric : List String :=
  ["india", "indian", "startup", "company", "funding", "raises",
   "million", "crore", "series", "round", "investment", "launches",
   "announces", "plans", "model", "platform", "technology", "digital",
   "artificial", "intelligence", "machine", "learning", "data",
   "centre", "center", "global", "first", "latest", "biggest",
   "healthcare", "health", "care", "sector", "industry"]

/-- `known_companies` list of `_extract_distinguishing_terms`. -/
def knownCompanies : List String :=
  ["google", "microsoft", "amazon", "meta", "facebook", "apple",
   "nvidia", "openai", "anthropic", "ibm", "oracle", "salesforce",
   "infosys", "tcs", "wipro", "hcl", "tech mahindra", "cognizant",
   "reliance", "tata", "adani", "airtel", "jio", "paytm", "flipkart",
   "zomato", "swiggy", "ola", "uber", "byju", "unacademy"]

/-- `re.sub(r'[^\w]', '', word).lower()` on one whitespace token. -/
def cleanWord (w : List Char) : String :=
  pyLowerS ⟨w.filter isWordChar⟩

/-- What the key-term loop of `_extract_distinguishing_terms` adds for one
term (`None` when the term is skipped). -/
def distTermImage (term : String) : Option String :=
  if pyLowerS term ∈ knownCompanies then some (pyLowerS term)
  else if 4 < term.length ∧ term ∉ commonGeneric then some term
  else none

/-- What the word loop of `_extract_distinguishing_terms` adds for the
`i`-th whitespace token (`None` when skipped).  The loop carries no
capitalisation test: its membership and length checks run on the cleaned,
lower-cased token. -/
def distWordImage (iw : Nat × List Char) : Option String :=
  let c := cleanWord iw.2
  if c ∈ knownCompanies then some c
  else if 0 < iw.1 ∧ 3 < c.length ∧ c ∉ commonGeneric then some c
  else none

/-- Fold step adding an optional image to the accumulated set. -/
def addImage (acc : List String) (img : Option String) : List String :=
  match img with
  | some y => setInsert y acc
  | none => acc

/-- `Deduplicator._extract_distinguishing_terms` (called by the scorer with
the lower-cased title as `text`). -/
def extractDistinguishingTerms (text : List Char) (entities : Entities) : List String :=
  let fromTerms := entities.keyTerms.foldl
    (fun acc term => addImage acc (distTermImage term)) []
  ((pySplit text).enum.foldl (fun acc iw => addImage acc (distWordImage iw)) fromTerms)

/-!
### Deduplicator — similarity scorer (`_calculate_similarity`)
-/

/-- Class constant `TOKEN_SET_THRESHOLD`. -/
def TOKEN_SET_THRESHOLD : Nat := 88

/-- Class constant `PARTIAL_THRESHOLD`. -/
def PARTIAL_THRESHOLD : Nat := 90

/-- Class constant `COMBINED_THRESHOLD`. -/
def COMBINED_THRESHOLD : ℚ := 82

/-- `fuzz.token_set_ratio(t1.lower(), t2.lower())`. -/
def tokenSetOf (t1 t2 : String) : Nat :=
  tokenSetRatio (pyLowerL t1.data) (pyLowerL t2.data)

/-- `fuzz.partial_ratio(t1.lower(), t2.lower())`. -/
def partialOf (t1 t2 : String) : Nat :=
  partialRatioFz (pyLowerL t1.data) (pyLowerL t2.data)

/-- `fuzz.token_sort_ratio(t1.lower(), t2.lower())`. -/
def tokenSortOf (t1 t2 : String) : Nat :=
  tokenSortRatio (pyLowerL t1.data) (pyLowerL t2.data)

/-- `fuzz.ratio(t1.lower(), t2.lower())`. -/
def basicOf (t1 t2 : String) : Nat :=
  ratioFz (pyLowerL t1.data) (pyLowerL t2.data)

/-- `weighted_avg = token_set*0.4 + partial*0.25 + token_sort*0.25 + basic*0.1`. -/
def weightedAvg (t1 t2 : String) : ℚ :=
  (tokenSetOf t1 t2 : ℚ) * 0.4 + (partialOf t1 t2 : ℚ) * 0.25
    + (tokenSortOf t1 t2 : ℚ) * 0.25 + (basicOf t1 t2 : ℚ) * 0.1

/-- The reason strings of `_calculate_similarity`, as structured data (the
claims only inspect which rule fired and its numeric payload, never the
f-string formatting). -/
inductive DupReason where
  | similarAmounts
  | termOverlap (ratio : ℚ)
  | amountsAndTermOverlap (ratio : ℚ)
  | tokenSetHigh (ts bas : Nat)
  | tokenSetWithEntity (ts : Nat) (inner : DupReason)
  | partialHigh (p : Nat)
  | combinedEntity (inner : DupReason)
deriving DecidableEq

/-- The anti-false-merge gate: true exactly when one of the two early
`return weighted_avg, None` branches of `_calculate_similarity` fires
(differing non-similar amounts, or low distinguishing-term overlap). -/
def vetoCheck (title1 title2 : String) : Option Entities → Option Entities → Bool
  | some e1, some e2 =>
    (!e1.amounts.isEmpty && !e2.amounts.isEmpty
      && !setEqB e1.amounts e2.amounts
      && !amountsAreSimilar e1.amounts e2.amounts)
    ||
    (let key1 := extractDistinguishingTerms (pyLowerL title1.data) e1
     let key2 := extractDistinguishingTerms (pyLowerL title2.data) e2
     !key1.isEmpty && !key2.isEmpty
       && decide (2 ≤ unionCount key1 key2)
       && decide ((interCount key1 key2 : ℚ) / (unionCount key1 key2 : ℚ) < 0.3))
  | _, _ => false

/-- The `entity_adjustment += 8` part of Step 3: fires when both amount
lists are non-empty and `_amounts_are_similar` holds. -/
def amountBoost (e1 e2 : Entities) : ℚ × Option DupReason :=
  if !e1.amounts.isEmpty && !e2.amounts.isEmpty
       && amountsAreSimilar e1.amounts e2.amounts
  then (8, some .similarAmounts) else (0, none)

/-- The key-term overlap ratio `len(common)/len(total) if total_terms
else 0` of Step 3 (also exactly how claim C8 reads it). -/
def specOverlapRatio (e1 e2 : Entities) : ℚ :=
  if unionCount e1.keyTerms e2.keyTerms ≠ 0 then
    (interCount e1.keyTerms e2.keyTerms : ℚ) / (unionCount e1.keyTerms e2.keyTerms : ℚ)
  else 0

/-- The entity-based score boost of Step 3: `+8` for present-and-similar
amount sets, plus `int(overlap_ratio * 15)` when the key-term overlap
ratio exceeds 0.50, together with the reason it records. -/
def entityBoost : Option Entities → Option Entities → ℚ × Option DupReason
  | some e1, some e2 =>
    if !e1.keyTerms.isEmpty && !e2.keyTerms.isEmpty then
      if 0.50 < specOverlapRatio e1 e2 then
        ((amountBoost e1 e2).1 + (pyIntNat (specOverlapRatio e1 e2 * 15) : ℚ),
         match (amountBoost e1 e2).2 with
         | none => some (.termOverlap (specOverlapRatio e1 e2))
         | some _ => some (.amountsAndTermOverlap (specOverlapRatio e1 e2)))
      else amountBoost e1 e2
    else amountBoost e1 e2
  | _, _ => (0, none)

/-- `final_score = min(100, weighted_avg + entity_adjustment)`. -/
def finalScoreOf (t1 t2 : String) (e1 e2 : Option Entities) : ℚ :=
  min 100 (weightedAvg t1 t2 + (entityBoost e1 e2).1)

/-- `Deduplicator._calculate_similarity`.  The Python `if/elif` ladder is
flattened into an equivalent chain of guarded returns (`token_set ≥ 88`
with `basic < 70` and no entity reason falls through to the later checks,
exactly as the nested source does). -/
def calculateSimilarity (title1 title2 : String)
    (entities1 entities2 : Option Entities) : ℚ × Option DupReason :=
  if vetoCheck title1 title2 entities1 entities2 then
    (weightedAvg title1 title2, none)
  else if TOKEN_SET_THRESHOLD ≤ tokenSetOf title1 title2 ∧ 70 ≤ basicOf title1 title2 then
    (finalScoreOf title1 title2 entities1 entities2,
     some (.tokenSetHigh (tokenSetOf title1 title2) (basicOf title1 title2)))
  else if TOKEN_SET_THRESHOLD ≤ tokenSetOf title1 title2
        ∧ (entityBoost entities1 entities2).2.isSome then
    (finalScoreOf title1 title2 entities1 entities2,
     (entityBoost entities1 entities2).2.map (.tokenSetWithEntity (tokenSetOf title1 title2)))
  else if PARTIAL_THRESHOLD ≤ partialOf title1 title2 ∧ 80 ≤ tokenSortOf title1 title2 then
    (finalScoreOf title1 title2 entities1 entities2,
     some (.partialHigh (partialOf title1 title2)))
  else if COMBINED_THRESHOLD + 5 ≤ finalScoreOf title1 title2 entities1 entities2
        ∧ (entityBoost entities1 entities2).2.isSome then
    (finalScoreOf title1 title2 entities1 entities2,
     (entityBoost entities1 entities2).2.map .combinedEntity)
  else
    (finalScoreOf title1 title2 entities1 entities2, none)

/-!
### Deduplicator — window store and coordinator
(`__init__`, `_load_database_titles`, `is_duplicate`)

The durable store is external: `_load_database_titles` runs one query
(rolling window and soft-delete filtering happen inside the query) and
either gets the row list or raises.  That interaction is modelled by an
`Except`-valued `fetch` argument standing for the query outcome; timestamps
are abstract naturals.
-/

/-- One row of the durable-store query result (`title`, `url`,
`date_scraped` after window/soft-delete filtering). -/
structure DbRecord where
  title : String
  url : String
  dateScraped : Nat
deriving DecidableEq

/-- One entry of `_db_titles` / `seen_titles`. -/
structure TitleEntry where
  title : String
  url : String
  date : Nat
  entities : Entities
deriving DecidableEq

/-- The mutable state of a `Deduplicator` instance (`__init__`). -/
structure DedupState where
  seenUrls : List String
  seenNormalizedUrls : List String
  seenTitles : List TitleEntry
  dbTitlesLoaded : Bool
  dbTitles : List TitleEntry
deriving DecidableEq

/-- A freshly constructed `Deduplicator()`. -/
def freshState : DedupState :=
  { seenUrls := [], seenNormalizedUrls := [], seenTitles := [],
    dbTitlesLoaded := false, dbTitles := [] }

/-- `Deduplicator._load_database_titles`: a no-op once loaded; on success
each row's title is entity-extracted and appended to `_db_titles` while its
URL and normalised URL join the seen sets; on a raised query the exception
is swallowed and the loaded flag is still set (no retry, empty history). -/
def loadDatabaseTitles (fetch : Except String (List DbRecord))
    (s : DedupState) : DedupState :=
  if s.dbTitlesLoaded then s
  else
    match fetch with
    | .ok recs =>
      let s1 := recs.foldl (fun st r =>
        { st with
          dbTitles := st.dbTitles
            ++ [{ title := r.title, url := r.url, date := r.dateScraped,
                  entities := extractEntities r.title }],
          seenUrls := st.seenUrls ++ [r.url],
          seenNormalizedUrls := st.seenNormalizedUrls ++ [normalizeUrl r.url] }) s
      { s1 with dbTitlesLoaded := true }
    | .error _ => { s with dbTitlesLoaded := true }

/-- Did `_calculate_similarity` call this entry a duplicate of `title`?
(`reason` is set exactly on duplicates.) -/
def entryMatches (title : String) (currentEntities : Entities)
    (e : TitleEntry) : Bool :=
  (calculateSimilarity title e.title (some currentEntities) (some e.entities)).2.isSome

/-- `Deduplicator.is_duplicate`.  `datePublished`/`content` mirror the
optional Python arguments (`content` is accepted and never read); `now`
stands for `datetime.utcnow()` used as the fallback stored date. -/
def isDuplicate (fetch : Except String (List DbRecord)) (s : DedupState)
    (url title : String) (datePublished : Option Nat) (content : Option String)
    (now : Nat) : Bool × DedupState :=
  let s := loadDatabaseTitles fetch s
  if url ∈ s.seenUrls then (true, s)
  else
    let normalizedUrl := normalizeUrl url
    if normalizedUrl ∈ s.seenNormalizedUrls then (true, s)
    else
      let currentEntities := extractEntities title
      if s.dbTitles.any (entryMatches title currentEntities) then (true, s)
      else if s.seenTitles.any (entryMatches title currentEntities) then (true, s)
      else
        (false,
         { s with
           seenUrls := s.seenUrls ++ [url],
           seenNormalizedUrls := s.seenNormalizedUrls ++ [normalizedUrl],
           seenTitles := s.seenTitles
             ++ [{ title := title, url := url,
                   date := datePublished.getD now,
                   entities := currentEntities }] })

/-- The record-mutation applied by an accepting `is_duplicate`. -/
def recordArticle (s : DedupState) (url title : String) (d : Option Nat)
    (now : Nat) : DedupState :=
  { s with
    seenUrls := s.seenUrls ++ [url],
    seenNormalizedUrls := s.seenNormalizedUrls ++ [normalizeUrl url],
    seenTitles := s.seenTitles
      ++ [{ title := title, url := url, date := d.getD now,
            entities := extractEntities title }] }

/-- The amount-similarity relation exactly as the specification words it
(4.3a): extract the leading integer of each amount string, drop zero /
failed parses; similar iff a side is empty, some pair is equal, or some
pair is within the `min/max > 0.8` tolerance. -/
def specAmountsSimilar (amounts1 amounts2 : List String) : Prop :=
  let n1 := (amounts1.map extractNumber).filter (0 < ·)
  let n2 := (amounts2.map extractNumber).filter (0 < ·)
  n1 = [] ∨ n2 = [] ∨ (∃ x ∈ n1, x ∈ n2) ∨
    ∃ x ∈ n1, ∃ y ∈ n2, 4 * max x y < 5 * min x y

/-- Is the raw word capitalised?  (Used only by the claim-side reading of
the distinguishing-term extraction.) -/
def isCapitalized (w : List Char) : Bool :=
  match w with
  | c :: _ => 'A' ≤ c ∧ c ≤ 'Z'
  | [] => false

/-- The distinguishing-term extraction exactly as claim C3 words it: key
terms longer than 4 characters, outside the generic list, not already
counted as amounts, plus every capitalised non-first word of the raw
(un-lowercased) title, lower-cased for comparison. -/
def specDistinguishingTerms (rawTitle : String) (e : Entities) : List String :=
  let fromTerms := e.keyTerms.filter
    (fun t => 4 < t.length ∧ t ∉ commonGeneric ∧ t ∉ e.amounts)
  let capWords := ((pySplit rawTitle.data).enum.filter
      (fun iw => 0 < iw.1 ∧ isCapitalized iw.2)).map
    (fun iw => pyLowerS ⟨iw.2⟩)
  pySet (fromTerms ++ capWords)

/-- The boost exactly as claim C8 words it: `+8` whenever the amount sets
are similar (and the 4.3a helper calls empty sets similar), plus
`int(ratio * 15)` when the key-term overlap ratio exceeds 0.50. -/
def specBoostClaim (e1 e2 : Entities) : ℚ :=
  (if amountsAreSimilar e1.amounts e2.amounts = true then 8 else 0) +
  (if (0.50 : ℚ) < specOverlapRatio e1 e2 then
    (pyIntNat (specOverlapRatio e1 e2 * 15) : ℚ) else 0)

/-- The boost as the code computes it — the amended claim: the `+8` is
additionally gated on both amount lists being non-empty. -/
def specBoostAmended (e1 e2 : Entities) : ℚ :=
  (if e1.amounts ≠ [] ∧ e2.amounts ≠ [] ∧
      amountsAreSimilar e1.amounts e2.amounts = true then 8 else 0) +
  (if (0.50 : ℚ) < specOverlapRatio e1 e2 then
    (pyIntNat (specOverlapRatio e1 e2 * 15) : ℚ) else 0)

/-!
### Helper lemmas about the coordinator state
-/

lemma load_of_loaded (fetch : Except String (List DbRecord)) (s : DedupState)
    (h : s.dbTitlesLoaded = true) : loadDatabaseTitles fetch s = s := by
  simp [loadDatabaseTitles, h]

lemma load_sets_flag (fetch : Except String (List DbRecord)) (s : DedupState) :
    (loadDatabaseTitles fetch s).dbTitlesLoaded = true := by
  unfold loadDatabaseTitles
  split
  · assumption
  · cases fetch <;> simp

lemma isDuplicate_state_cases (fetch : Except String (List DbRecord))
    (s : DedupState) (url title : String) (d : Option Nat) (c : Option String)
    (now : Nat) :
    (isDuplicate fetch s url title d c now).2 = loadDatabaseTitles fetch s ∨
    (isDuplicate fetch s url title d c now).2 =
      recordArticle (loadDatabaseTitles fetch s) url title d now := by
  simp only [isDuplicate, recordArticle]
  split_ifs <;> simp

lemma isDuplicate_true_state (fetch : Except String (List DbRecord))
    (s : DedupState) (url title : String) (d : Option Nat) (c : Option String)
    (now : Nat) (h : (isDuplicate fetch s url title d c now).1 = true) :
    (isDuplicate fetch s url title d c now).2 = loadDatabaseTitles fetch s := by
  simp only [isDuplicate] at h ⊢
  split_ifs at h ⊢ <;> simp_all

lemma isDuplicate_false_state (fetch : Except String (List DbRecord))
    (s : DedupState) (url title : String) (d : Option Nat) (c : Option String)
    (now : Nat) (h : (isDuplicate fetch s url title d c now).1 = false) :
    (isDuplicate fetch s url title d c now).2 =
      recordArticle (loadDatabaseTitles fetch s) url title d now := by
  simp only [isDuplicate, recordArticle] at h ⊢
  split_ifs at h ⊢ <;> simp_all

lemma isDuplicate_first_accepts (url title : String) (d : Option Nat)
    (c : Option String) (n : Nat) :
    isDuplicate (.ok []) freshState url title d c n
      = (false, recordArticle { freshState with dbTitlesLoaded := true }
          url title d n) := by
  simp [isDuplicate, loadDatabaseTitles, freshState, recordArticle]

/-- C6: starting a run with a fresh `Deduplicator` and an empty history,
the same `(url, title)` is accepted once and rejected on the second call;
the exact-URL check dominates every later check and the normalised-URL
check dominates the pairwise scans; and the store is record-mutated exactly
on a not-duplicate verdict. -/
theorem dedup_C6_exact_duplicate :
    (∀ (url title : String) (d d2 : Option Nat) (c c2 : Option String) (n n2 : Nat),
      (isDuplicate (.ok []) freshState url title d c n).1 = false ∧
      (isDuplicate (.ok [])
        (isDuplicate (.ok []) freshState url title d c n).2 url title d2 c2 n2).1 = true) ∧
    (∀ fetch s (url title : String) d c n,
      url ∈ (loadDatabaseTitles fetch s).seenUrls →
      (isDuplicate fetch s url title d c n).1 = true) ∧
    (∀ fetch s (url title : String) d c n,
      url ∉ (loadDatabaseTitles fetch s).seenUrls →
      normalizeUrl url ∈ (loadDatabaseTitles fetch s).seenNormalizedUrls →
      (isDuplicate fetch s url title d c n).1 = true) ∧
    (∀ fetch s (url title : String) d c n,
      ((isDuplicate fetch s url title d c n).1 = true →
        (isDuplicate fetch s url title d c n).2 = loadDatabaseTitles fetch s) ∧
      ((isDuplicate fetch s url title d c n).1 = false →
        (isDuplicate fetch s url title d c n).2 =
          recordArticle (loadDatabaseTitles fetch s) url title d n)) := by
  refine ⟨?_, ?_, ?_, ?_⟩
  · intro url title d d2 c c2 n n2
    rw [isDuplicate_first_accepts url title d c n]
    constructor
    · rfl
    · have hl : (recordArticle { freshState with dbTitlesLoaded := true }
          url title d n).dbTitlesLoaded = true := rfl
      simp only [isDuplicate, load_of_loaded _ _ hl]
      have hm : url ∈ (recordArticle { freshState with dbTitlesLoaded := true }
          url title d n).seenUrls := by
        simp [recordArticle, freshState]
      simp [hm]
  · intro fetch s url title d c n h
    simp only [isDuplicate]
    simp [h]
  · intro fetch s url title d c n h1 h2
    simp only [isDuplicate]
    simp [h1, h2]
  · intro fetch s url title d c n
    exact ⟨isDuplicate_true_state fetch s url title d c n,
           isDuplicate_false_state fetch s url title d c n⟩

/-- C6 witness: the double-call property at a concrete article. -/
theorem dedup_C6_witness :
    (isDuplicate (.ok []) freshState "https://e.com/a" "tiny ai story"
        none none 0).1 = false ∧
    (isDuplicate (.ok [])
        (isDuplicate (.ok []) freshState "https://e.com/a" "tiny ai story"
          none none 0).2 "https://e.com/a" "tiny ai story" none none 0).1 = true :=
  dedup_C6_exact_duplicate.1 "https://e.com/a" "tiny ai story"
    none none none none 0 0

/-- C7: the history scope is loaded at most once (a loaded store is never
touched again by the loader), every duplicate check leaves the store in the
loaded state, a failing load degrades a fresh run to an empty history with
the loaded flag set, and after such a failure no later check — whatever its
fetch outcome would be — ever repopulates the history. -/
theorem dedup_C7_history_load_once :
    (∀ (fetch : Except String (List DbRecord)) (s : DedupState),
      s.dbTitlesLoaded = true → loadDatabaseTitles fetch s = s) ∧
    (∀ fetch s (url title : String) d c n,
      (isDuplicate fetch s url title d c n).2.dbTitlesLoaded = true) ∧
    (∀ e : String,
      loadDatabaseTitles (.error e) freshState
        = { freshState with dbTitlesLoaded := true }) ∧
    (∀ (e : String) (url title : String) d c n
        (fetch2 : Except String (List DbRecord)) (url2 title2 : String) d2 c2 n2,
      (isDuplicate fetch2
          (isDuplicate (.error e) freshState url title d c n).2
          url2 title2 d2 c2 n2).2.dbTitles = []) := by
  have hload : ∀ fetch s (url title : String) d c n,
      (isDuplicate fetch s url title d c n).2.dbTitlesLoaded = true := by
    intro fetch s url title d c n
    rcases isDuplicate_state_cases fetch s url title d c n with h | h <;>
      rw [h] <;> simp [recordArticle, load_sets_flag]
  have hdb : ∀ fetch s (url title : String) d c n,
      (isDuplicate fetch s url title d c n).2.dbTitles
        = (loadDatabaseTitles fetch s).dbTitles := by
    intro fetch s url title d c n
    rcases isDuplicate_state_cases fetch s url title d c n with h | h <;>
      rw [h] <;> simp [recordArticle]
  refine ⟨load_of_loaded, hload, fun e => rfl, ?_⟩
  intro e url title d c n fetch2 url2 title2 d2 c2 n2
  rw [hdb, load_of_loaded _ _ (hload _ _ _ _ _ _ _), hdb]
  rfl

/-- C7 witness: a concrete failing first load, never retried. -/
theorem dedup_C7_witness :
    loadDatabaseTitles (.error "db down") freshState
      = { freshState with dbTitlesLoaded := true } ∧
    loadDatabaseTitles (.ok [⟨"t", "u", 3⟩])
      ({ freshState with dbTitlesLoaded := true })
      = ({ freshState with dbTitlesLoaded := true }) :=
  ⟨dedup_C7_history_load_once.2.2.1 "db down",
   dedup_C7_history_load_once.1 _ _ (by decide)⟩

/-- C9: once the history is loaded, a check that answers `duplicate` is
read-only — the seen-URL set, the seen-normalised-URL set and the
cycle-scope title list (indeed the whole store) are unchanged. -/
theorem dedup_C9_reject_frame (fetch : Except String (List DbRecord))
    (s : DedupState) (url title : String) (d : Option Nat) (c : Option String)
    (now : Nat) (hloaded : s.dbTitlesLoaded = true)
    (hdup : (isDuplicate fetch s url title d c now).1 = true) :
    (isDuplicate fetch s url title d c now).2 = s := by
  have h := isDuplicate_true_state fetch s url title d c now hdup
  rwa [load_of_loaded fetch s hloaded] at h

/-- C9 witness: a loaded store rejecting an already-seen URL is unchanged. -/
theorem dedup_C9_witness :
    (isDuplicate (.ok [])
        ({ freshState with seenUrls := ["https://e.com/a"], dbTitlesLoaded := true })
        "https://e.com/a" "t" none none 0).2
      = ({ freshState with seenUrls := ["https://e.com/a"], dbTitlesLoaded := true }) :=
  dedup_C9_reject_frame (.ok []) _ "https://e.com/a" "t" none none 0
    (by decide) (by decide)

/-- C10: the optional `content` argument is dead in `is_duplicate` — the
verdict and the final store state are identical for any two contents (the
entities compared are extracted from the title alone). -/
theorem dedup_C10_content_independent
    (fetch : Except String (List DbRecord)) (s : DedupState)
    (url title : String) (d : Option Nat) (c1 c2 : Option String) (now : Nat) :
    isDuplicate fetch s url title d c1 now
      = isDuplicate fetch s url title d c2 now := rfl

/-- C1: whenever both entity sets carry amounts and those amount sets are
neither set-equal nor similar in the sense of `_amounts_are_similar`, the
scorer stops at the anti-false-merge gate: it returns the bare weighted
average with no duplicate reason, whatever the four string-similarity
values are. -/
theorem dedup_C1_amount_veto (t1 t2 : String) (e1 e2 : Entities)
    (h1 : e1.amounts.isEmpty = false) (h2 : e2.amounts.isEmpty = false)
    (h3 : setEqB e1.amounts e2.amounts = false)
    (h4 : amountsAreSimilar e1.amounts e2.amounts = false) :
    calculateSimilarity t1 t2 (some e1) (some e2)
      = (weightedAvg t1 t2, none) := by
  have hveto : vetoCheck t1 t2 (some e1) (some e2) = true := by
    simp [vetoCheck, h1, h2, h3, h4]
  simp [calculateSimilarity, hveto]

/-- C1 witness: the Series-A/Series-B pair of the specification is vetoed
(`$10 million` vs `$50 million` extract as `10mn` vs `50mn`, which are
neither equal nor within tolerance), hence not a duplicate. -/
theorem dedup_C1_witness :
    calculateSimilarity
      "Startup X raises $10 million in Series A funding"
      "Startup X raises $50 million in Series B funding round"
      (some (extractEntities "Startup X raises $10 million in Series A funding"))
      (some (extractEntities "Startup X raises $50 million in Series B funding round"))
    = (weightedAvg "Startup X raises $10 million in Series A funding"
        "Startup X raises $50 million in Series B funding round", none) :=
  dedup_C1_amount_veto _ _ _ _ (by decide) (by decide) (by decide) (by decide)

/-- C5: `_amounts_are_similar` coincides with the specification's
amount-similarity helper on every pair of amount lists, and decides the
two quoted examples as stated (`{5000cr}` vs `{5000}` similar, `{10mn}`
vs `{50mn}` not). -/
theorem dedup_C5_amount_similarity :
    (∀ amounts1 amounts2 : List String,
      amountsAreSimilar amounts1 amounts2 = true ↔
        specAmountsSimilar amounts1 amounts2) ∧
    amountsAreSimilar ["5000cr"] ["5000"] = true ∧
    amountsAreSimilar ["10mn"] ["50mn"] = false := by
  refine ⟨?_, by decide, by decide⟩
  intro a1 a2
  have hmem : ∀ (l : List Nat) (x : Nat),
      x ∈ l.dedup.filter (0 < ·) ↔ x ∈ l.filter (0 < ·) := by
    intro l x
    simp [List.mem_filter, List.mem_dedup]
  have hnil : ∀ l : List Nat,
      (l.dedup.filter (0 < ·) = []) ↔ (l.filter (0 < ·) = []) := by
    intro l
    simp only [List.eq_nil_iff_forall_not_mem]
    exact ⟨fun h x hx => h x ((hmem l x).mpr hx),
           fun h x hx => h x ((hmem l x).mp hx)⟩
  simp only [amountsAreSimilar, specAmountsSimilar]
  split_ifs with hz hi
  · refine iff_of_true rfl ?_
    rcases hz with h | h
    · exact Or.inl ((hnil _).mp h)
    · exact Or.inr (Or.inl ((hnil _).mp h))
  · refine iff_of_true rfl ?_
    refine Or.inr (Or.inr (Or.inl ?_))
    simp only [List.any_eq_true, decide_eq_true_eq] at hi
    obtain ⟨x, hx1, hx2⟩ := hi
    exact ⟨x, (hmem _ x).mp hx1, (hmem _ x).mp hx2⟩
  · rw [not_or] at hz
    constructor
    · intro h
      refine Or.inr (Or.inr (Or.inr ?_))
      simp only [List.any_eq_true, decide_eq_true_eq] at h
      obtain ⟨x, hx, y, hy, hxy⟩ := h
      exact ⟨x, (hmem _ x).mp hx, y, (hmem _ y).mp hy, hxy⟩
    · rintro (h | h | ⟨x, hx, hx2⟩ | ⟨x, hx, y, hy, hxy⟩)
      · exact absurd ((hnil _).mpr h) hz.1
      · exact absurd ((hnil _).mpr h) hz.2
      · exact absurd (by
          simp only [List.any_eq_true, decide_eq_true_eq]
          exact ⟨x, (hmem _ x).mpr hx, (hmem _ x).mpr hx2⟩) hi
      · simp only [List.any_eq_true, decide_eq_true_eq]
        exact ⟨x, (hmem _ x).mpr hx, y, (hmem _ y).mpr hy, hxy⟩

/-!
### C4 — idempotence of URL normalisation
-/

lemma startsWithL_iff_append (p l : List Char) :
    startsWithL p l = true ↔ ∃ t, l = p ++ t := by
  induction p generalizing l with
  | nil => simp [startsWithL]
  | cons a ps ih =>
    cases l with
    | nil => simp [startsWithL]
    | cons b ls =>
      simp only [startsWithL, Bool.and_eq_true, decide_eq_true_eq, ih]
      constructor
      · rintro ⟨rfl, t, rfl⟩; exact ⟨t, rfl⟩
      · rintro ⟨t, h⟩
        cases h
        exact ⟨rfl, t, rfl⟩

lemma containsSub_append_left (p x y : List Char)
    (h : containsSub p x = true) : containsSub p (x ++ y) = true := by
  induction x with
  | nil =>
    simp only [containsSub] at h
    rw [startsWithL_iff_append] at h
    obtain ⟨t, ht⟩ := h
    cases p with
    | nil => cases y <;> simp [containsSub, startsWithL]
    | cons a ps => simp at ht
  | cons c cs ih =>
    simp only [containsSub, Bool.or_eq_true] at h ⊢
    rcases h with h | h
    · left
      rw [startsWithL_iff_append] at h ⊢
      obtain ⟨t, ht⟩ := h
      exact ⟨t ++ y, by rw [← List.append_assoc, ← ht]⟩
    · right; exact ih h

lemma containsSub_of_startsWith (p l : List Char)
    (h : startsWithL p l = true) : containsSub p l = true := by
  cases l with
  | nil => simpa [containsSub] using h
  | cons c cs => simp [containsSub, h]

lemma containsSub_of_append_right (p x y : List Char)
    (h : containsSub p y = true) : containsSub p (x ++ y) = true := by
  induction x with
  | nil => simpa using h
  | cons c cs ih =>
    simp only [List.cons_append, containsSub, Bool.or_eq_true]
    right; exact ih

lemma rstripSlash_append (l : List Char) :
    ∃ t, l = rstripSlash l ++ t := by
  have hs : l.reverse.dropWhile (· = '/') <:+ l.reverse := List.dropWhile_suffix _
  obtain ⟨t0, ht0⟩ := hs
  refine ⟨t0.reverse, ?_⟩
  have := congrArg List.reverse ht0
  simpa [rstripSlash] using this.symm

lemma mem_rstripSlash (l : List Char) (c : Char) (h : c ∈ rstripSlash l) :
    c ∈ l := by
  obtain ⟨t, ht⟩ := rstripSlash_append l
  rw [ht]
  exact List.mem_append_left _ h

lemma containsSub_rstripSlash (p l : List Char)
    (h : containsSub p l = false) : containsSub p (rstripSlash l) = false := by
  by_contra hc
  rw [Bool.not_eq_false] at hc
  obtain ⟨t, ht⟩ := rstripSlash_append l
  rw [ht, containsSub_append_left p _ t hc] at h
  cases h

lemma stripTrackingF_id (f : Nat) (l : List Char)
    (h : ∀ c ∈ l, c ≠ '?' ∧ c ≠ '&') : stripTrackingF f l = l := by
  induction f generalizing l with
  | zero => rfl
  | succ f ih =>
    cases l with
    | nil => rfl
    | cons c cs =>
      have hc := h c (List.mem_cons_self c cs)
      rw [stripTrackingF, if_neg (by tauto),
        ih cs (fun d hd => h d (List.mem_cons_of_mem c hd))]

lemma stripDangling_id (l : List Char) (h : ∀ c ∈ l, c ≠ '?' ∧ c ≠ '&') :
    stripDangling l = l := by
  unfold stripDangling
  cases hr : l.reverse with
  | nil => rfl
  | cons c rest =>
    have hc : c ∈ l := by
      rw [← List.mem_reverse, hr]; exact List.mem_cons_self c rest
    show (if c = '?' ∨ c = '&' then rest.reverse else l) = l
    rw [if_neg (by have := h c hc; tauto)]

lemma pyLowerL_id (l : List Char) (h : ∀ c ∈ l, ¬('A' ≤ c ∧ c ≤ 'Z')) :
    pyLowerL l = l := by
  induction l with
  | nil => rfl
  | cons c cs ih =>
    have hc := h c (List.mem_cons_self c cs)
    simp only [pyLowerL, List.map_cons]
    rw [show asciiLower c = c from by simp [asciiLower, hc]]
    have := ih (fun d hd => h d (List.mem_cons_of_mem c hd))
    simpa [pyLowerL] using this

lemma stripWwwF_id (f : Nat) (l : List Char)
    (h : containsSub ['w', 'w', 'w', '.'] l = false) : stripWwwF f l = l := by
  induction f generalizing l with
  | zero => rfl
  | succ f ih =>
    cases l with
    | nil => rfl
    | cons c cs =>
      have hns : startsWithL [':', '/', '/', 'w', 'w', 'w', '.'] (c :: cs) = false := by
        by_contra hc
        rw [Bool.not_eq_false, startsWithL_iff_append] at hc
        obtain ⟨t, ht⟩ := hc
        have : containsSub ['w', 'w', 'w', '.'] (c :: cs) = true := by
          rw [ht]
          show containsSub ['w', 'w', 'w', '.']
            ([':', '/', '/'] ++ (['w', 'w', 'w', '.'] ++ t)) = true
          exact containsSub_of_append_right _ _ _
            (containsSub_of_startsWith _ _
              ((startsWithL_iff_append _ _).mpr ⟨t, rfl⟩))
        rw [this] at h; cases h
      have htail : containsSub ['w', 'w', 'w', '.'] cs = false := by
        by_contra hc
        rw [Bool.not_eq_false] at hc
        have : containsSub ['w', 'w', 'w', '.'] (c :: cs) = true := by
          simp [containsSub, hc]
        rw [this] at h; cases h
      rw [stripWwwF, if_neg (by simp [hns]), ih cs htail]

lemma dropWhile_idem (p : Char → Bool) (x : List Char) :
    (x.dropWhile p).dropWhile p = x.dropWhile p := by
  induction x with
  | nil => rfl
  | cons c cs ih =>
    by_cases h : p c = true
    · simp [List.dropWhile_cons, h, ih]
    · simp [List.dropWhile_cons, h]

lemma rstripSlash_idem (l : List Char) :
    rstripSlash (rstripSlash l) = rstripSlash l := by
  simp [rstripSlash, dropWhile_idem]

/-- Under the side conditions of the amended claim, a normalisation pass is
exactly trailing-slash stripping. -/
lemma normalizeUrlL_eq_rstrip (l : List Char)
    (hq : ∀ c ∈ l, c ≠ '?' ∧ c ≠ '&')
    (hu : ∀ c ∈ l, ¬('A' ≤ c ∧ c ≤ 'Z'))
    (hw : containsSub ['w', 'w', 'w', '.'] l = false) :
    normalizeUrlL l = rstripSlash l := by
  by_cases hnil : l = []
  · subst hnil; rfl
  · unfold normalizeUrlL
    rw [if_neg hnil]
    show stripWwwF
        ((rstripSlash (pyLowerL (stripDangling
            (stripTrackingF (l.length + 1) l)))).length + 1)
        (rstripSlash (pyLowerL (stripDangling
            (stripTrackingF (l.length + 1) l)))) = rstripSlash l
    rw [stripTrackingF_id _ _ hq, stripDangling_id _ hq, pyLowerL_id _ hu,
      stripWwwF_id _ _ (containsSub_rstripSlash _ _ hw)]

/-- C4 counterexample: normalisation is not idempotent.  The tracking
substitution is case-sensitive but runs before lower-casing, so `?UTM_x`
survives the first pass and is stripped by the second. -/
theorem dedup_C4_counterexample :
    normalizeUrl (normalizeUrl "a?UTM_x") ≠ normalizeUrl "a?UTM_x" := by decide

/-- C4 amended: normalisation is idempotent on URLs without `?` or `&`
characters, without upper-case ASCII letters, and without the substring
`www.` (each exclusion forced by a second-pass interaction: late
lower-casing re-exposes tracking parameters, the dangling-`?`/`&` strip
removes one character per pass, and the `://www.` substitution can expose
new occurrences or a new trailing slash). -/
theorem dedup_C4_amended_idempotent (u : String)
    (hq : ∀ c ∈ u.data, c ≠ '?' ∧ c ≠ '&')
    (hu : ∀ c ∈ u.data, ¬('A' ≤ c ∧ c ≤ 'Z'))
    (hw : containsSub ['w', 'w', 'w', '.'] u.data = false) :
    normalizeUrl (normalizeUrl u) = normalizeUrl u := by
  show (⟨normalizeUrlL (normalizeUrl u).data⟩ : String) = ⟨normalizeUrlL u.data⟩
  have h1 : normalizeUrlL u.data = rstripSlash u.data :=
    normalizeUrlL_eq_rstrip _ hq hu hw
  have hdata : (normalizeUrl u).data = rstripSlash u.data := by
    show (normalizeUrlL u.data) = _
    exact h1
  rw [hdata, h1,
    normalizeUrlL_eq_rstrip _ (fun c hc => hq c (mem_rstripSlash _ _ hc))
      (fun c hc => hu c (mem_rstripSlash _ _ hc))
      (containsSub_rstripSlash _ _ hw),
    rstripSlash_idem]

/-- C4 witness: a typical already-canonical URL is a fixed point. -/
theorem dedup_C4_witness :
    normalizeUrl (normalizeUrl "https://example.com/article/")
      = normalizeUrl "https://example.com/article/" :=
  dedup_C4_amended_idempotent "https://example.com/article/"
    (by decide) (by decide) (by decide)

/-!
### C3 — distinguishing terms and the cross-entity veto
-/

lemma mem_addImage (acc : List String) (o : Option String) (x : String) :
    x ∈ addImage acc o ↔ x ∈ acc ∨ o = some x := by
  cases o with
  | none => simp [addImage]
  | some y =>
    simp only [addImage, setInsert, Option.some.injEq]
    split_ifs with hy
    · constructor
      · exact fun h => Or.inl h
      · rintro (h | rfl)
        · exact h
        · exact hy
    · simp [List.mem_append, eq_comm]

lemma mem_foldl_addImage {α : Type} (g : α → Option String) (l : List α)
    (init : List String) (x : String) :
    x ∈ l.foldl (fun acc a => addImage acc (g a)) init ↔
      x ∈ init ∨ ∃ a ∈ l, g a = some x := by
  induction l generalizing init with
  | nil => simp
  | cons hd tl ih =>
    simp only [List.foldl_cons, ih, mem_addImage, List.mem_cons]
    constructor
    · rintro ((h | h) | ⟨a, ha, hg⟩)
      · exact Or.inl h
      · exact Or.inr ⟨hd, Or.inl rfl, h⟩
      · exact Or.inr ⟨a, Or.inr ha, hg⟩
    · rintro (h | ⟨a, ha | ha, hg⟩)
      · exact Or.inl (Or.inl h)
      · subst ha; exact Or.inl (Or.inr hg)
      · exact Or.inr ⟨a, ha, hg⟩

lemma distTermImage_eq_iff (t : String) (x : String) :
    distTermImage t = some x ↔
      (pyLowerS t ∈ knownCompanies ∧ x = pyLowerS t) ∨
      (pyLowerS t ∉ knownCompanies ∧ 4 < t.length ∧ t ∉ commonGeneric ∧ x = t) := by
  simp only [distTermImage]
  split_ifs with h1 h2 <;> simp_all [eq_comm]

lemma distWordImage_eq_iff (iw : Nat × List Char) (x : String) :
    distWordImage iw = some x ↔
      (cleanWord iw.2 ∈ knownCompanies ∧ x = cleanWord iw.2) ∨
      (cleanWord iw.2 ∉ knownCompanies ∧ 0 < iw.1 ∧ 3 < (cleanWord iw.2).length ∧
        cleanWord iw.2 ∉ commonGeneric ∧ x = cleanWord iw.2) := by
  simp only [distWordImage]
  split_ifs with h1 h2 <;> simp_all [eq_comm]

/-- C3 amended, part 1 — what the code's distinguishing-term set really is:
the lower-cased key terms that are known companies, the key terms longer
than 4 characters outside the generic list, and — with no capitalisation
test at all — every non-first whitespace token of the (already lower-cased)
title whose cleaned form is a known company or is longer than 3 characters
and not generic.  Part 2 — the cross-entity veto exactly as claimed: when
both titles have distinguishing terms, the union has at least two and the
overlap ratio is below 0.3, the scorer returns the bare weighted average
with no duplicate reason. -/
theorem dedup_C3_amended_distinguishing :
    (∀ (text : List Char) (e : Entities) (x : String),
      x ∈ extractDistinguishingTerms text e ↔
        (∃ t ∈ e.keyTerms,
          (pyLowerS t ∈ knownCompanies ∧ x = pyLowerS t) ∨
          (pyLowerS t ∉ knownCompanies ∧ 4 < t.length ∧ t ∉ commonGeneric ∧ x = t)) ∨
        (∃ iw ∈ (pySplit text).enum,
          (cleanWord iw.2 ∈ knownCompanies ∧ x = cleanWord iw.2) ∨
          (cleanWord iw.2 ∉ knownCompanies ∧ 0 < iw.1 ∧ 3 < (cleanWord iw.2).length ∧
            cleanWord iw.2 ∉ commonGeneric ∧ x = cleanWord iw.2))) ∧
    (∀ (t1 t2 : String) (e1 e2 : Entities),
      (extractDistinguishingTerms (pyLowerL t1.data) e1).isEmpty = false →
      (extractDistinguishingTerms (pyLowerL t2.data) e2).isEmpty = false →
      2 ≤ unionCount (extractDistinguishingTerms (pyLowerL t1.data) e1)
            (extractDistinguishingTerms (pyLowerL t2.data) e2) →
      ((interCount (extractDistinguishingTerms (pyLowerL t1.data) e1)
            (extractDistinguishingTerms (pyLowerL t2.data) e2) : ℚ) /
          (unionCount (extractDistinguishingTerms (pyLowerL t1.data) e1)
            (extractDistinguishingTerms (pyLowerL t2.data) e2) : ℚ) < 0.3) →
      calculateSimilarity t1 t2 (some e1) (some e2)
        = (weightedAvg t1 t2, none)) := by
  constructor
  · intro text e x
    simp only [extractDistinguishingTerms, mem_foldl_addImage,
      distTermImage_eq_iff, distWordImage_eq_iff, List.not_mem_nil, false_or]
  · intro t1 t2 e1 e2 h1 h2 h3 h4
    have hveto : vetoCheck t1 t2 (some e1) (some e2) = true := by
      simp only [vetoCheck]
      rw [Bool.or_eq_true]
      right
      simp [h1, h2, h3, h4]
    simp [calculateSimilarity, hveto]

/-- C3 counterexample: for the title `Startup wins huge deal`, the code's
distinguishing set contains `wins` (a non-first 4-letter cleaned token),
while the claim's characterisation — key terms longer than 4 outside the
generic list and not amounts, plus capitalised non-first raw words —
yields the empty set. -/
theorem dedup_C3_counterexample :
    "wins" ∈ extractDistinguishingTerms
        (pyLowerL "Startup wins huge deal".data)
        (extractEntities "Startup wins huge deal") ∧
    specDistinguishingTerms "Startup wins huge deal"
        (extractEntities "Startup wins huge deal") = [] := by decide

set_option maxRecDepth 100000 in
unseal Rat.add Rat.mul Rat.inv Rat.sub Rat.ofScientific in
/-- C3 witness: the Google/Microsoft pair of the specification is vetoed
by the distinguishing-term gate (`{google}` vs `{microsoft}`: union 2,
overlap 0). -/
theorem dedup_C3_witness :
    calculateSimilarity
      "Google launches new AI model for healthcare"
      "Microsoft launches new AI model for healthcare"
      (some (extractEntities "Google launches new AI model for healthcare"))
      (some (extractEntities "Microsoft launches new AI model for healthcare"))
    = (weightedAvg "Google launches new AI model for healthcare"
        "Microsoft launches new AI model for healthcare", none) :=
  dedup_C3_amended_distinguishing.2 _ _ _ _
    (by decide) (by decide) (by decide) (by decide)

/-!
### C2 — classification ladder
-/

/-- C2: when neither anti-false-merge veto fires, the pair is classified as
duplicate exactly when one of the four conditions holds — high token-set
with decent basic ratio, high token-set with an entity-boost reason, high
partial with high token-sort, or combined score at least 87 with an
entity-boost reason — and the reason returned identifies the first
condition in that priority order that holds. -/
theorem dedup_C2_classification (t1 t2 : String) (e1 e2 : Option Entities)
    (hv : vetoCheck t1 t2 e1 e2 = false) :
    ((calculateSimilarity t1 t2 e1 e2).2.isSome = true ↔
      (TOKEN_SET_THRESHOLD ≤ tokenSetOf t1 t2 ∧ 70 ≤ basicOf t1 t2) ∨
      (TOKEN_SET_THRESHOLD ≤ tokenSetOf t1 t2 ∧ (entityBoost e1 e2).2.isSome = true) ∨
      (PARTIAL_THRESHOLD ≤ partialOf t1 t2 ∧ 80 ≤ tokenSortOf t1 t2) ∨
      (COMBINED_THRESHOLD + 5 ≤ finalScoreOf t1 t2 e1 e2 ∧
        (entityBoost e1 e2).2.isSome = true)) ∧
    ((TOKEN_SET_THRESHOLD ≤ tokenSetOf t1 t2 ∧ 70 ≤ basicOf t1 t2) →
      (calculateSimilarity t1 t2 e1 e2).2
        = some (.tokenSetHigh (tokenSetOf t1 t2) (basicOf t1 t2))) ∧
    (¬(TOKEN_SET_THRESHOLD ≤ tokenSetOf t1 t2 ∧ 70 ≤ basicOf t1 t2) →
      (TOKEN_SET_THRESHOLD ≤ tokenSetOf t1 t2 ∧ (entityBoost e1 e2).2.isSome = true) →
      (calculateSimilarity t1 t2 e1 e2).2
        = (entityBoost e1 e2).2.map (.tokenSetWithEntity (tokenSetOf t1 t2))) ∧
    (¬(TOKEN_SET_THRESHOLD ≤ tokenSetOf t1 t2 ∧ 70 ≤ basicOf t1 t2) →
      ¬(TOKEN_SET_THRESHOLD ≤ tokenSetOf t1 t2 ∧ (entityBoost e1 e2).2.isSome = true) →
      (PARTIAL_THRESHOLD ≤ partialOf t1 t2 ∧ 80 ≤ tokenSortOf t1 t2) →
      (calculateSimilarity t1 t2 e1 e2).2 = some (.partialHigh (partialOf t1 t2))) ∧
    (¬(TOKEN_SET_THRESHOLD ≤ tokenSetOf t1 t2 ∧ 70 ≤ basicOf t1 t2) →
      ¬(TOKEN_SET_THRESHOLD ≤ tokenSetOf t1 t2 ∧ (entityBoost e1 e2).2.isSome = true) →
      ¬(PARTIAL_THRESHOLD ≤ partialOf t1 t2 ∧ 80 ≤ tokenSortOf t1 t2) →
      (COMBINED_THRESHOLD + 5 ≤ finalScoreOf t1 t2 e1 e2 ∧
        (entityBoost e1 e2).2.isSome = true) →
      (calculateSimilarity t1 t2 e1 e2).2
        = (entityBoost e1 e2).2.map .combinedEntity) := by
  unfold calculateSimilarity
  rw [if_neg (by simp [hv])]
  split_ifs with h1 h2 h3 h4 <;>
    refine ⟨?_, ?_, ?_, ?_, ?_⟩ <;> simp_all [Option.isSome_map]

set_option maxRecDepth 1000000 in
unseal Rat.add Rat.mul Rat.inv Rat.sub Rat.ofScientific in
/-- C2 witness: the classification characterisation instantiated at the
follow-up pair of the specification, where no veto fires. -/
theorem dedup_C2_witness :
    (calculateSimilarity "Karnataka announces AI policy framework"
        "Karnataka AI policy framework implementation begins"
        (some (extractEntities "Karnataka announces AI policy framework"))
        (some (extractEntities "Karnataka AI policy framework implementation begins"))).2.isSome
        = true ↔
      (TOKEN_SET_THRESHOLD ≤ tokenSetOf "Karnataka announces AI policy framework"
          "Karnataka AI policy framework implementation begins"
        ∧ 70 ≤ basicOf "Karnataka announces AI policy framework"
          "Karnataka AI policy framework implementation begins") ∨
      (TOKEN_SET_THRESHOLD ≤ tokenSetOf "Karnataka announces AI policy framework"
          "Karnataka AI policy framework implementation begins"
        ∧ (entityBoost
            (some (extractEntities "Karnataka announces AI policy framework"))
            (some (extractEntities "Karnataka AI policy framework implementation begins"))).2.isSome
          = true) ∨
      (PARTIAL_THRESHOLD ≤ partialOf "Karnataka announces AI policy framework"
          "Karnataka AI policy framework implementation begins"
        ∧ 80 ≤ tokenSortOf "Karnataka announces AI policy framework"
          "Karnataka AI policy framework implementation begins") ∨
      (COMBINED_THRESHOLD + 5 ≤ finalScoreOf "Karnataka announces AI policy framework"
          "Karnataka AI policy framework implementation begins"
          (some (extractEntities "Karnataka announces AI policy framework"))
          (some (extractEntities "Karnataka AI policy framework implementation begins"))
        ∧ (entityBoost
            (some (extractEntities "Karnataka announces AI policy framework"))
            (some (extractEntities "Karnataka AI policy framework implementation begins"))).2.isSome
          = true) :=
  (dedup_C2_classification "Karnataka announces AI policy framework"
    "Karnataka AI policy framework implementation begins" _ _ (by decide)).1

/-!
### C8 — score bounds: the SequenceMatcher total match never exceeds
either length, hence every ratio is at most 100
-/

lemma lcsRowGo_length (ai : Char) (b : List Char) (prev : List Nat) (diag : Nat) :
    (lcsRowGo ai b prev diag).length = b.length := by
  induction b generalizing prev diag with
  | nil => rfl
  | cons c cs ih => simp [lcsRowGo, ih]

lemma lcsRowGo_le (ai : Char) (b : List Char) (prev : List Nat) (diag t : Nat)
    (hprev : ∀ x ∈ prev, x ≤ t) (hdiag : diag ≤ t) :
    ∀ x ∈ lcsRowGo ai b prev diag, x ≤ t + 1 := by
  induction b generalizing prev diag with
  | nil => intro x hx; cases hx
  | cons c cs ih =>
    intro x hx
    rcases List.mem_cons.mp hx with rfl | hx
    · split_ifs <;> omega
    · refine ih prev.tail (prev.headD 0) ?_ ?_ x hx
      · intro y hy
        exact hprev y (List.mem_of_mem_tail hy)
      · cases prev with
        | nil => simpa using Nat.zero_le t
        | cons p ps => exact hprev p (List.mem_cons_self p ps)

lemma tail_getD (l : List Nat) (j : Nat) : l.tail.getD j 0 = l.getD (j + 1) 0 := by
  cases l <;> simp

lemma lcsRowGo_getD (ai : Char) (b : List Char) (prev : List Nat) (diag t0 : Nat)
    (hdiag : diag ≤ t0) (hprev : ∀ j, prev.getD j 0 ≤ t0 + j + 1) :
    ∀ j, (lcsRowGo ai b prev diag).getD j 0 ≤ t0 + j + 1 := by
  induction b generalizing prev diag t0 with
  | nil => intro j; simp [lcsRowGo]
  | cons c cs ih =>
    intro j
    cases j with
    | zero =>
      show ((if c = ai then diag + 1 else 0) :: _).getD 0 0 ≤ t0 + 0 + 1
      split_ifs <;> simp <;> omega
    | succ j =>
      have hd : prev.headD 0 ≤ t0 + 1 := by
        have h0 := hprev 0
        cases prev with
        | nil => simp
        | cons p ps =>
          simp only [List.getD_cons_zero] at h0
          simp only [List.headD_cons]
          omega
      have hp : ∀ m, prev.tail.getD m 0 ≤ (t0 + 1) + m + 1 := by
        intro m
        rw [tail_getD]
        have := hprev (m + 1)
        omega
      have hrec := ih prev.tail (prev.headD 0) (t0 + 1) hd hp j
      show (lcsRowGo ai cs prev.tail (prev.headD 0)).getD j 0 ≤ t0 + (j + 1) + 1
      omega

lemma scanRow_inv (A B i : Nat) (hi : i + 1 ≤ A) :
    ∀ (row : List Nat) (j : Nat) (best : Nat × Nat × Nat),
    (∀ x ∈ row, x ≤ i + 1) →
    (∀ m, row.getD m 0 ≤ j + m + 1) →
    j + row.length ≤ B →
    best.1 + best.2.2 ≤ A → best.2.1 + best.2.2 ≤ B →
    (scanRow i row j best).1 + (scanRow i row j best).2.2 ≤ A ∧
      (scanRow i row j best).2.1 + (scanRow i row j best).2.2 ≤ B := by
  intro row
  induction row with
  | nil => intro j best _ _ _ h1 h2; exact ⟨h1, h2⟩
  | cons k rest ih =>
    intro j best hle hpos hlen h1 h2
    rw [List.length_cons] at hlen
    show (scanRow i rest (j + 1) _).1 + _ ≤ A ∧ _
    have hk : k ≤ i + 1 := hle k (List.mem_cons_self k rest)
    have hkj : k ≤ j + 1 := by have := hpos 0; simpa using this
    refine ih (j + 1) _ ?_ ?_ ?_ ?_ ?_
    · intro x hx; exact hle x (List.mem_cons_of_mem k hx)
    · intro m
      have h := hpos (m + 1)
      rw [List.getD_cons_succ] at h
      omega
    · omega
    · split_ifs with hlt
      · show i + 1 - k + k ≤ A
        omega
      · exact h1
    · split_ifs with hlt
      · show j + 1 - k + k ≤ B
        omega
      · exact h2

lemma flmGo_inv (B : Nat) (b : List Char) (hB : B = b.length) :
    ∀ (arest : List Char) (A i : Nat) (prev : List Nat) (best : Nat × Nat × Nat),
    i + arest.length = A →
    (∀ x ∈ prev, x ≤ i) →
    (∀ m, prev.getD m 0 ≤ m + 1) →
    best.1 + best.2.2 ≤ A → best.2.1 + best.2.2 ≤ B →
    (flmGo b arest i prev best).1 + (flmGo b arest i prev best).2.2 ≤ A ∧
      (flmGo b arest i prev best).2.1 + (flmGo b arest i prev best).2.2 ≤ B := by
  intro arest
  induction arest with
  | nil => intro A i prev best _ _ _ h1 h2; exact ⟨h1, h2⟩
  | cons ai arest ih =>
    intro A i prev best hA hprev hpos h1 h2
    show (flmGo b arest (i + 1) _ _).1 + _ ≤ A ∧ _
    have hrowle : ∀ x ∈ lcsRowGo ai b prev 0, x ≤ i + 1 :=
      lcsRowGo_le ai b prev 0 i hprev (Nat.zero_le i)
    have hrowpos : ∀ m, (lcsRowGo ai b prev 0).getD m 0 ≤ m + 1 := by
      have := lcsRowGo_getD ai b prev 0 0 (Nat.le_refl 0)
        (fun j => by have := hpos j; omega)
      intro m; have := this m; omega
    have hiA : i + 1 ≤ A := by simp at hA; omega
    have hscan := scanRow_inv A B i hiA (lcsRowGo ai b prev 0) 0 best hrowle
      (fun m => by have := hrowpos m; omega)
      (by rw [lcsRowGo_length]; omega) h1 h2
    exact ih A (i + 1) _ _ (by simp at hA ⊢; omega) hrowle hrowpos hscan.1 hscan.2

lemma findLongestMatch_bound (a b : List Char) :
    (findLongestMatch a b).1 + (findLongestMatch a b).2.2 ≤ a.length ∧
      (findLongestMatch a b).2.1 + (findLongestMatch a b).2.2 ≤ b.length := by
  refine flmGo_inv b.length b rfl a a.length 0 [] (0, 0, 0) (by simp) ?_ ?_
    (by simp) (by simp)
  · intro x hx; cases hx
  · intro m; simp

lemma matchTotalF_le (fuel : Nat) :
    ∀ (a b : List Char), matchTotalF fuel a b ≤ min a.length b.length := by
  induction fuel with
  | zero => intro a b; simp [matchTotalF]
  | succ fuel ih =>
    intro a b
    have hb := findLongestMatch_bound a b
    simp only [matchTotalF]
    split_ifs with hz
    · simp
    · have h1 := ih (a.take (findLongestMatch a b).1) (b.take (findLongestMatch a b).2.1)
      have h2 := ih (a.drop ((findLongestMatch a b).1 + (findLongestMatch a b).2.2))
        (b.drop ((findLongestMatch a b).2.1 + (findLongestMatch a b).2.2))
      simp only [List.length_take, List.length_drop] at h1 h2
      rw [Nat.le_min] at h1 h2 ⊢
      constructor
      · have := h1.1
        have := h2.1
        omega
      · have := h1.2
        have := h2.2
        omega

lemma matchTotal_le (a b : List Char) :
    matchTotal a b ≤ min a.length b.length := matchTotalF_le _ a b

lemma pyIntNat_cast_floor (q : ℚ) (h : 0 ≤ q) : (pyIntNat q : ℤ) = ⌊q⌋ := by
  rw [Rat.floor_def, pyIntNat, Int.ofNat_tdiv,
    Int.toNat_of_nonneg (Rat.num_nonneg.mpr h)]
  exact Int.tdiv_eq_ediv (Rat.num_nonneg.mpr h) (Int.ofNat_nonneg _)

lemma pyIntNat_le (q : ℚ) (h : 0 ≤ q) : (pyIntNat q : ℚ) ≤ q := by
  have := Int.floor_le q
  rw [← pyIntNat_cast_floor q h] at this
  exact_mod_cast this

lemma lt_pyIntNat_add_one (q : ℚ) (h : 0 ≤ q) : q < pyIntNat q + 1 := by
  have := Int.lt_floor_add_one q
  rw [← pyIntNat_cast_floor q h] at this
  exact_mod_cast this

lemma intr_le_100 (q : ℚ) (h0 : 0 ≤ q) (h : q ≤ 100) : intr q ≤ 100 := by
  have hfle : (pyIntNat q : ℚ) ≤ q := pyIntNat_le q h0
  have hf100 : pyIntNat q ≤ 100 := by
    have : (pyIntNat q : ℚ) ≤ 100 := le_trans hfle h
    exact_mod_cast this
  have h99 : (pyIntNat q : ℚ) ≤ (100 : ℚ) - 1 / 2 → pyIntNat q + 1 ≤ 100 := by
    intro hle
    have hlt : (pyIntNat q : ℚ) < 100 := by linarith
    have : pyIntNat q < 100 := by exact_mod_cast hlt
    omega
  show (if q - (pyIntNat q : ℚ) < 1 / 2 then pyIntNat q
        else if 1 / 2 < q - (pyIntNat q : ℚ) then pyIntNat q + 1
        else if pyIntNat q % 2 = 0 then pyIntNat q else pyIntNat q + 1) ≤ 100
  split_ifs with h1 h2 h3
  · exact hf100
  · exact h99 (by linarith)
  · exact hf100
  · have heq : q - pyIntNat q = 1 / 2 := le_antisymm (not_lt.mp h2) (not_lt.mp h1)
    exact h99 (by linarith)

lemma seqRatioQ_nonneg (a b : List Char) : 0 ≤ seqRatioQ a b := by
  show 0 ≤ (if a.length + b.length = 0 then (1 : ℚ)
    else (2 * matchTotal a b : ℚ) / ((a.length + b.length : Nat) : ℚ))
  split_ifs with h
  · norm_num
  · positivity

lemma seqRatioQ_le_one (a b : List Char) : seqRatioQ a b ≤ 1 := by
  show (if a.length + b.length = 0 then (1 : ℚ)
    else (2 * matchTotal a b : ℚ) / ((a.length + b.length : Nat) : ℚ)) ≤ 1
  split_ifs with h
  · norm_num
  · have hm := matchTotal_le a b
    have hT : (0 : ℚ) < ((a.length + b.length : Nat) : ℚ) := by
      have : 0 < a.length + b.length := Nat.pos_of_ne_zero h
      exact_mod_cast this
    rw [div_le_one hT]
    have : 2 * matchTotal a b ≤ a.length + b.length := by
      rcases Nat.le_total a.length b.length with hab | hab <;>
        [rw [min_eq_left hab] at hm; rw [min_eq_right hab] at hm] <;> omega
    exact_mod_cast this

lemma foldl_max_le (l : List ℚ) (c : ℚ) :
    ∀ acc, acc ≤ c → (∀ x ∈ l, x ≤ c) → l.foldl max acc ≤ c := by
  induction l with
  | nil => intro acc hacc _; exact hacc
  | cons x xs ih =>
    intro acc hacc h
    exact ih _ (max_le hacc (h x (List.mem_cons_self x xs)))
      (fun y hy => h y (List.mem_cons_of_mem x hy))

lemma le_foldl_max (l : List ℚ) : ∀ acc, acc ≤ l.foldl max acc := by
  induction l with
  | nil => intro acc; exact le_refl acc
  | cons x xs ih =>
    intro acc
    exact le_trans (le_max_left acc x) (ih (max acc x))

lemma ratioFz_le_100 (s1 s2 : List Char) : ratioFz s1 s2 ≤ 100 := by
  unfold ratioFz
  split_ifs with h
  · omega
  · exact intr_le_100 _ (by have := seqRatioQ_nonneg s1 s2; linarith)
      (by have := seqRatioQ_le_one s1 s2; linarith)

lemma intr_100_maxQ_le (scores : List ℚ) (hall : ∀ x ∈ scores, x ≤ 1) :
    intr (100 * maxQ scores) ≤ 100 := by
  refine intr_le_100 _ ?_ ?_
  · have := le_foldl_max scores 0
    unfold maxQ
    linarith
  · have : maxQ scores ≤ 1 := foldl_max_le scores 1 0 (by norm_num) hall
    linarith

lemma partialRatioFz_le_100 (s1 s2 : List Char) : partialRatioFz s1 s2 ≤ 100 := by
  simp only [partialRatioFz]
  split_ifs <;>
    first
      | omega
      | (refine intr_100_maxQ_le _ ?_
         intro x hx
         obtain ⟨bl, hbl, rfl⟩ := List.mem_map.mp hx
         exact seqRatioQ_le_one _ _)

lemma tokenSortRatio_le_100 (s1 s2 : List Char) : tokenSortRatio s1 s2 ≤ 100 :=
  ratioFz_le_100 _ _

lemma tokenSetRatio_le_100 (s1 s2 : List Char) : tokenSetRatio s1 s2 ≤ 100 := by
  simp only [tokenSetRatio]
  split_ifs with h
  · omega
  · exact max_le (max_le (ratioFz_le_100 _ _) (ratioFz_le_100 _ _))
      (ratioFz_le_100 _ _)

lemma weightedAvg_nonneg (t1 t2 : String) : 0 ≤ weightedAvg t1 t2 := by
  unfold weightedAvg
  positivity

lemma weightedAvg_le_100 (t1 t2 : String) : weightedAvg t1 t2 ≤ 100 := by
  have h1 : tokenSetOf t1 t2 ≤ 100 := tokenSetRatio_le_100 _ _
  have h2 : partialOf t1 t2 ≤ 100 := partialRatioFz_le_100 _ _
  have h3 : tokenSortOf t1 t2 ≤ 100 := tokenSortRatio_le_100 _ _
  have h4 : basicOf t1 t2 ≤ 100 := ratioFz_le_100 _ _
  have h1q : (tokenSetOf t1 t2 : ℚ) ≤ 100 := by exact_mod_cast h1
  have h2q : (partialOf t1 t2 : ℚ) ≤ 100 := by exact_mod_cast h2
  have h3q : (tokenSortOf t1 t2 : ℚ) ≤ 100 := by exact_mod_cast h3
  have h4q : (basicOf t1 t2 : ℚ) ≤ 100 := by exact_mod_cast h4
  have h1n : (0 : ℚ) ≤ (tokenSetOf t1 t2 : ℚ) := Nat.cast_nonneg _
  have h2n : (0 : ℚ) ≤ (partialOf t1 t2 : ℚ) := Nat.cast_nonneg _
  have h3n : (0 : ℚ) ≤ (tokenSortOf t1 t2 : ℚ) := Nat.cast_nonneg _
  have h4n : (0 : ℚ) ≤ (basicOf t1 t2 : ℚ) := Nat.cast_nonneg _
  unfold weightedAvg
  norm_num
  linarith

lemma amountBoost_nonneg (e1 e2 : Entities) : 0 ≤ (amountBoost e1 e2).1 := by
  unfold amountBoost
  split_ifs <;> norm_num

lemma entityBoost_nonneg (e1 e2 : Option Entities) : 0 ≤ (entityBoost e1 e2).1 := by
  cases e1 with
  | none => cases e2 <;> norm_num [entityBoost]
  | some e1 =>
    cases e2 with
    | none => norm_num [entityBoost]
    | some e2 =>
      simp only [entityBoost]
      split_ifs with h1 h2
      · exact add_nonneg (amountBoost_nonneg _ _) (Nat.cast_nonneg _)
      · exact amountBoost_nonneg _ _
      · exact amountBoost_nonneg _ _

lemma interCount_nil_left (b : List String) : interCount [] b = 0 := rfl

lemma interCount_nil_right (a : List String) : interCount a [] = 0 := by
  simp [interCount]

lemma specOverlapRatio_zero_of_empty (e1 e2 : Entities)
    (h : e1.keyTerms = [] ∨ e2.keyTerms = []) : specOverlapRatio e1 e2 = 0 := by
  unfold specOverlapRatio
  split_ifs with ht
  · rcases h with h | h <;> rw [h]
    · rw [interCount_nil_left]; norm_num
    · rw [interCount_nil_right]; norm_num
  · rfl

lemma amountBoost_fst (e1 e2 : Entities) :
    (amountBoost e1 e2).1 = (if e1.amounts ≠ [] ∧ e2.amounts ≠ [] ∧
        amountsAreSimilar e1.amounts e2.amounts = true then (8 : ℚ) else 0) := by
  unfold amountBoost
  split_ifs with h1 h2 <;>
    simp_all [List.isEmpty_iff, Bool.and_eq_true, Bool.not_eq_true']

lemma entityBoost_eq_specBoostAmended (e1 e2 : Entities) :
    (entityBoost (some e1) (some e2)).1 = specBoostAmended e1 e2 := by
  unfold specBoostAmended
  rw [← amountBoost_fst]
  by_cases hk : (!e1.keyTerms.isEmpty && !e2.keyTerms.isEmpty) = true
  · by_cases hov : (0.50 : ℚ) < specOverlapRatio e1 e2
    · simp [entityBoost, hk, hov]
    · simp [entityBoost, hk, hov]
  · have hke : e1.keyTerms = [] ∨ e2.keyTerms = [] := by
      by_contra hcon
      push_neg at hcon
      have h1 : e1.keyTerms.isEmpty = false := by
        rw [Bool.eq_false_iff]
        intro hx
        exact hcon.1 (List.isEmpty_iff.mp hx)
      have h2 : e2.keyTerms.isEmpty = false := by
        rw [Bool.eq_false_iff]
        intro hx
        exact hcon.2 (List.isEmpty_iff.mp hx)
      exact hk (by simp [h1, h2])
    have hz : specOverlapRatio e1 e2 = 0 :=
      specOverlapRatio_zero_of_empty e1 e2 hke
    rw [hz, if_neg (by norm_num), add_zero]
    simp [entityBoost, hk]

/-- C8 amended: the score returned by the scorer always lies in [0, 100];
and when neither veto fires it equals
`min(100, 0.40·token_set + 0.25·partial + 0.25·token_sort + 0.10·basic + boost)`
where the boost is `+8` only when both amount sets are non-empty and
similar (not merely similar, which holds vacuously for empty sets), plus
`int(overlap·15)` when the key-term overlap ratio exceeds 0.50. -/
theorem dedup_C8_amended_score :
    (∀ (t1 t2 : String) (e1 e2 : Option Entities),
      0 ≤ (calculateSimilarity t1 t2 e1 e2).1 ∧
        (calculateSimilarity t1 t2 e1 e2).1 ≤ 100) ∧
    (∀ (t1 t2 : String) (e1 e2 : Entities),
      vetoCheck t1 t2 (some e1) (some e2) = false →
      (calculateSimilarity t1 t2 (some e1) (some e2)).1 =
        min 100 ((tokenSetOf t1 t2 : ℚ) * 0.4 + (partialOf t1 t2 : ℚ) * 0.25
          + (tokenSortOf t1 t2 : ℚ) * 0.25 + (basicOf t1 t2 : ℚ) * 0.1
          + specBoostAmended e1 e2)) := by
  have hfs : ∀ (t1 t2 : String) (e1 e2 : Option Entities),
      0 ≤ finalScoreOf t1 t2 e1 e2 ∧ finalScoreOf t1 t2 e1 e2 ≤ 100 := by
    intro t1 t2 e1 e2
    exact ⟨le_min (by norm_num)
        (add_nonneg (weightedAvg_nonneg _ _) (entityBoost_nonneg _ _)),
      min_le_left _ _⟩
  constructor
  · intro t1 t2 e1 e2
    unfold calculateSimilarity
    split_ifs
    · exact ⟨weightedAvg_nonneg t1 t2, weightedAvg_le_100 t1 t2⟩
    all_goals exact hfs t1 t2 e1 e2
  · intro t1 t2 e1 e2 hv
    have hps : (calculateSimilarity t1 t2 (some e1) (some e2)).1
        = finalScoreOf t1 t2 (some e1) (some e2) := by
      unfold calculateSimilarity
      rw [if_neg (by simp [hv])]
      split_ifs <;> rfl
    rw [hps]
    unfold finalScoreOf
    rw [entityBoost_eq_specBoostAmended]
    unfold weightedAvg
    rfl

set_option maxRecDepth 1000000 in
unseal Rat.add Rat.mul Rat.inv Rat.sub Rat.ofScientific in
/-- C8 counterexample: for the amount-free pair `data hub` / `data fab`
(no veto, key-term overlap 1/3) the code's score is the bare weighted
average 75, while the claim's boost formula — `+8` whenever the amount
sets are "similar", which holds vacuously for two empty sets — predicts
83. -/
theorem dedup_C8_counterexample :
    (calculateSimilarity "data hub" "data fab"
        (some (extractEntities "data hub")) (some (extractEntities "data fab"))).1 ≠
      min 100 ((tokenSetOf "data hub" "data fab" : ℚ) * 0.4
        + (partialOf "data hub" "data fab" : ℚ) * 0.25
        + (tokenSortOf "data hub" "data fab" : ℚ) * 0.25
        + (basicOf "data hub" "data fab" : ℚ) * 0.1
        + specBoostClaim (extractEntities "data hub") (extractEntities "data fab")) := by
  decide

set_option maxRecDepth 1000000 in
unseal Rat.add Rat.mul Rat.inv Rat.sub Rat.ofScientific in
/-- C8 witness: the amended score formula instantiated at the same
veto-free pair. -/
theorem dedup_C8_witness :
    (calculateSimilarity "data hub" "data fab"
        (some (extractEntities "data hub")) (some (extractEntities "data fab"))).1 =
      min 100 ((tokenSetOf "data hub" "data fab" : ℚ) * 0.4
        + (partialOf "data hub" "data fab" : ℚ) * 0.25
        + (tokenSortOf "data hub" "data fab" : ℚ) * 0.25
        + (basicOf "data hub" "data fab" : ℚ) * 0.1
        + specBoostAmended (extractEntities "data hub") (extractEntities "data fab")) :=
  dedup_C8_amended_score.2 "data hub" "data fab" _ _ (by decide)
